import Mathlib

/-!
Verification of the cliesp CLI's core path-resolution and YAML-snippet
formatting logic, shallowly embedded from `main.go`.  The embedding targets
the unix build of the program: `os.IsPathSeparator` recognises only `'/'`
and `filepath.Separator` is `'/'`.  Strings are modelled by Lean `String`
(a list of characters); Go byte-indexed scans are modelled by character
scans, which coincide on the separator and dot tests used here because
those code points are ASCII.
-/

/-- Models `os.IsPathSeparator` on unix: only `'/'` is a separator. -/
def isPathSeparator (c : Char) : Bool := c = '/'

/-- Backtracking step of `filepath.Clean` for a `..` element: repeatedly
remove the last written character until the removed character is a
separator or the buffer length has shrunk to `dotdot`.  The output buffer
is kept in reverse order (most recently written character first). -/
def backtrackRev (dotdot : Nat) : List Char → List Char
  | [] => []
  | c :: rest => if rest.length > dotdot && !(isPathSeparator c) then backtrackRev dotdot rest else rest

/-- Main loop of `filepath.Clean` (unix): walks the remaining path
characters, maintaining the output buffer in reverse order and the
`dotdot` backtracking barrier, exactly mirroring the four cases of the
Go loop (separator, `.` element, `..` element, real element).  The
`fuel` argument only bounds the iteration so that the recursion is
structural; every iteration consumes at least one path character, so a
fuel of the path length always suffices and the `fuel = 0` fallback is
unreachable from `goClean`. -/
def cleanLoop (rooted : Bool) (fuel : Nat) (path : List Char) (outRev : List Char) (dotdot : Nat) : List Char :=
  match fuel with
  | 0 => outRev
  | Nat.succ f =>
    match path with
    | [] => outRev
    | c :: rest =>
      if isPathSeparator c then
        cleanLoop rooted f rest outRev dotdot
      else if c = '.' && (rest.isEmpty || isPathSeparator (rest.headD ' ')) then
        cleanLoop rooted f rest outRev dotdot
      else if c = '.' && rest.headD ' ' = '.' &&
          ((rest.drop 1).isEmpty || isPathSeparator ((rest.drop 1).headD ' ')) then
        if outRev.length > dotdot then
          cleanLoop rooted f (rest.drop 1) (backtrackRev dotdot outRev) dotdot
        else if !rooted then
          cleanLoop rooted f (rest.drop 1)
            ( '.' :: '.' :: (if outRev.length > 0 then '/' :: outRev else outRev))
            ( '.' :: '.' :: (if outRev.length > 0 then '/' :: outRev else outRev)).length
        else
          cleanLoop rooted f (rest.drop 1) outRev dotdot
      else
        cleanLoop rooted f (rest.dropWhile (fun x => !(isPathSeparator x)))
          ((c :: rest.takeWhile (fun x => !(isPathSeparator x))).reverse ++
            (if (rooted && outRev.length != 1) || (!rooted && outRev.length != 0) then '/' :: outRev else outRev))
          dotdot

/-- Models `filepath.Clean` on unix (volume length is zero and
`FromSlash` is the identity). -/
def goClean (path : String) : String :=
  match path.data with
  | [] => "."
  | c :: rest =>
    if isPathSeparator c then
      match cleanLoop true (rest.length + 1) rest [ '/' ] 1 with
      | [] => "."
      | out => String.mk out.reverse
    else
      match cleanLoop false (rest.length + 2) (c :: rest) [] 0 with
      | [] => "."
      | out => String.mk out.reverse

/-- Models `filepath.Join` restricted to two elements, as used by the
program: skip leading empty elements, join the rest with the separator,
then clean. -/
def filepathJoin (a b : String) : String :=
  if a ≠ "" then goClean (a ++ "/" ++ b)
  else if b ≠ "" then goClean b
  else ""

/-- Scanning core of `filepath.Ext`: walks the path from its last
character backwards (the list argument is the reversed path); stops with
the empty extension at a separator, and returns the suffix from the last
dot once a dot is reached.  The accumulator carries the characters
already passed, in original order. -/
def extScan (acc : List Char) : List Char → List Char
  | [] => []
  | c :: rest =>
    if isPathSeparator c then []
    else if c = '.' then '.' :: acc
    else extScan (c :: acc) rest

/-- Models `filepath.Ext`: the suffix of the final path element starting
at its last dot, or empty if the final element has no dot. -/
def goExt (p : String) : String := String.mk (extScan [] p.data.reverse)

/-- Models `strings.HasPrefix` via the character lists. -/
def goStartsWith (s pre : String) : Bool := pre.data.isPrefixOf s.data

/-- Models `strings.TrimPrefix` via the character lists. -/
def goTrimLeading (s pre : String) : String :=
  if goStartsWith s pre then String.mk (s.data.drop pre.data.length) else s

/-- Error raised when the process home directory cannot be determined
(the failure of `os.UserHomeDir`). -/
inductive PathError where
  | homeResolution
deriving DecidableEq

/-- Models `expandHome` from `main.go`.  The ambient result of
`os.UserHomeDir` is passed as `home`: `none` means the home directory
cannot be determined. -/
def expandHome (home : Option String) (path : String) : Except PathError String :=
  if path = "~" then
    match home with
    | none => Except.error PathError.homeResolution
    | some h => Except.ok h
  else if goStartsWith path ("~/") then
    match home with
    | none => Except.error PathError.homeResolution
    | some h => Except.ok (filepathJoin h (goTrimLeading path ("~/")))
  else Except.ok path

/-- Configuration record of the program (`AppConfig` in `main.go`). -/
structure AppConfig where
  MatchDir : String
  MatchFile : String
  FileOpener : String
  DirOpener : String
  MultilineMode : String
deriving DecidableEq

/-- Default match directory (`defaultEspansoMatchDir`). -/
def defaultEspansoMatchDir : String := "~/Library/Application Support/espanso/match"

/-- Default match file name (`defaultEspansoMatchFile`). -/
def defaultEspansoMatchFile : String := "cliesp.yml"

/-- Guarded home expansion as performed inline by `resolveMatchPath`:
expansion is attempted only when the string begins with a tilde. -/
def expandFlag (home : Option String) (p : String) : Except PathError String :=
  if goStartsWith p ("~") then expandHome home p else Except.ok p

/-- Last-character separator test of `resolveMatchPath`:
`len(p) > 0 && os.IsPathSeparator(p[len(p)-1])`. -/
def endsWithSeparator (p : String) : Bool :=
  match p.data.getLast? with
  | some c => isPathSeparator c
  | none => false

/-- Base directory chosen by `resolveMatchPath` before any flag
handling: the configured `match_dir` when non-empty, the default
otherwise (the local `dir` of the Go function). -/
def effectiveDir (cfg : AppConfig) : String :=
  if cfg.MatchDir = "" then defaultEspansoMatchDir else cfg.MatchDir

/-- File name chosen by `resolveMatchPath`: the configured `match_file`
when non-empty, the default otherwise (the local `file` of the Go
function). -/
def effectiveFile (cfg : AppConfig) : String :=
  if cfg.MatchFile = "" then defaultEspansoMatchFile else cfg.MatchFile

/-- Models `resolveMatchPath` from `main.go`.  `home` is the ambient
result of `os.UserHomeDir`. -/
def resolveMatchPath (home : Option String) (flagPath : String) (cfg : AppConfig) : Except PathError String :=
  if flagPath ≠ "" then
    match expandFlag home flagPath with
    | Except.error e => Except.error e
    | Except.ok p =>
      if endsWithSeparator p then Except.ok (filepathJoin p (effectiveFile cfg))
      else if goExt p ≠ "" then Except.ok p
      else Except.ok (filepathJoin p (effectiveFile cfg))
  else
    match expandFlag home (effectiveDir cfg) with
    | Except.error e => Except.error e
    | Except.ok d => Except.ok (filepathJoin d (effectiveFile cfg))

/-- Final path segment of `p`: the characters after the last separator
(the whole string when no separator occurs), as used by the
specification's notion of extension. -/
def specFinalSegment (p : String) : String :=
  String.mk ((p.data.reverse.takeWhile (fun c => !(isPathSeparator c))).reverse)

/-- Dot test used to relate `filepath.Ext` to the specification: does
the character list contain a dot anywhere? -/
def containsDotL : List Char → Bool
  | [] => false
  | c :: rest => c = '.' || containsDotL rest

/-- The specification's literal extension predicate: a dot followed by
at least one character. -/
def specDotFollowed : List Char → Bool
  | [] => false
  | c :: rest => (c = '.' && !rest.isEmpty) || specDotFollowed rest

/-- The claim's extension predicate on a path: its final segment
contains a dot followed by at least one character. -/
def specHasExtension (p : String) : Bool := specDotFollowed (specFinalSegment p).data

/-- Home shorthand recognised by `expandHome`: the bare tilde or a
tilde-slash prefix.  Expansion of a string is a no-op exactly when this
is false. -/
def needsHomeShorthand (s : String) : Bool := (s == "~") || goStartsWith s ("~/")

/-- Lowercase hexadecimal digit table of `strconv` (`lowerhex`). -/
def lowerHexDigit (n : Nat) : Char :=
  (("0123456789abcdef").data).getD n '0'

/-- Printability test of `strconv.IsPrint`.  Exact for code points up to
0xFF (the Latin-1 fast path of the Go source); the Unicode range-table
lookup for higher code points, a large data table, is modelled as
printable, which matches the table for all characters appearing in this
development (every quoted scalar in the program's tests is ASCII). -/
def goIsPrint (c : Char) : Bool :=
  let r := c.toNat
  if r ≤ 0xFF then
    (0x20 ≤ r && r < 0x7F) || (0xA1 ≤ r && r ≤ 0xFF && r ≠ 0xAD)
  else
    true

/-- Hexadecimal rendering of a code point on `k` lowercase digits,
most significant digit first (the `for s := ...; s -= 4` loop of
`appendEscapedRune`). -/
def hexDigits (k : Nat) (r : Nat) : List Char :=
  match k with
  | 0 => []
  | Nat.succ k2 => lowerHexDigit ((r >>> (4 * k2)) &&& 0xF) :: hexDigits k2 r

/-- Escape of a single rune inside a double-quoted Go string, modelling
`appendEscapedRune` with `quote = '"'`, `ASCIIonly = false`,
`graphicOnly = false`. -/
def escapeRune (c : Char) : List Char :=
  if c = '"' || c = '\\' then [ '\\', c ]
  else if goIsPrint c then [ c ]
  else if c = Char.ofNat 7 then [ '\\', 'a' ]
  else if c = Char.ofNat 8 then [ '\\', 'b' ]
  else if c = Char.ofNat 12 then [ '\\', 'f' ]
  else if c = '\n' then [ '\\', 'n' ]
  else if c = Char.ofNat 13 then [ '\\', 'r' ]
  else if c = '\t' then [ '\\', 't' ]
  else if c = Char.ofNat 11 then [ '\\', 'v' ]
  else if c.toNat < 0x20 || c.toNat = 0x7F then '\\' :: 'x' :: hexDigits 2 c.toNat
  else if c.toNat < 0x10000 then '\\' :: 'u' :: hexDigits 4 c.toNat
  else '\\' :: 'U' :: hexDigits 8 c.toNat

/-- Models `strconv.Quote` (the `%q` verb of `fmt` on strings): a double
quote, each rune escaped, a closing double quote.  Lean strings carry no
invalid UTF-8, so the `RuneError` byte case of the Go loop cannot arise. -/
def goQuote (s : String) : String :=
  String.mk ( '"' :: (s.data.map escapeRune).flatten ++ [ '"' ])

/-- Models `strings.Split` with the one-character separator `"\n"`. -/
def splitNl (cs : List Char) : List (List Char) :=
  match cs with
  | [] => [[]]
  | c :: rest =>
    if c = '\n' then [] :: splitNl rest
    else
      match splitNl rest with
      | [] => [[ c ]]
      | l :: ls => (c :: l) :: ls

/-- String-level wrapper of `splitNl`. -/
def goSplitNewline (s : String) : List String :=
  (splitNl s.data).map String.mk

/-- Per-line write loop of the literal-block branch of
`buildYAMLSnippet`: each line is prefixed with six spaces and terminated
with a newline. -/
def concatLines : List String → String
  | [] => ""
  | l :: ls => ("      " ++ l ++ "\n") ++ concatLines ls

/-- Inline-list write loop of the multi-trigger branch: every element
after the first is preceded by a comma and a space (`if i > 0`). -/
def concatRest : List String → String
  | [] => ""
  | t :: ts => (", " ++ goQuote t) ++ concatRest ts

/-- Inline rendering of the full trigger list. -/
def triggersInline : List String → String
  | [] => ""
  | t :: ts => goQuote t ++ concatRest ts

/-- Trigger line of the fragment: `trigger:` for exactly one element,
`triggers: [...]` otherwise (the `len(triggers) == 1` test). -/
def triggerPart (triggers : List String) : String :=
  match triggers with
  | [t] => "trigger: " ++ goQuote t ++ "\n"
  | _ => "triggers: [" ++ triggersInline triggers ++ "]\n"

/-- Replace line(s) of the fragment: literal-block style when the
replacement contains a newline, quoted scalar otherwise
(`strings.Contains(replace, "\n")`). -/
def replacePart (replace : String) : String :=
  if replace.data.contains '\n' then
    "    replace: |\n" ++ concatLines (goSplitNewline replace)
  else
    "    replace: " ++ goQuote replace ++ "\n"

/-- Models `buildYAMLSnippet` from `main.go`. -/
def buildYAMLSnippet (triggers : List String) (replace : String) : String :=
  "\n  - " ++ triggerPart triggers ++ replacePart replace

/-- Models `filepath.Dir` on unix: everything up to and including the
last separator, cleaned. -/
def goDir (p : String) : String :=
  goClean (String.mk ((p.data.reverse.dropWhile (fun c => !(isPathSeparator c))).reverse))

/-- Finite-map model of the file system touched by
`ensureFileWithHeader`: files with contents, and a set of directories.
Permission and device failures of the underlying system calls are
outside the model. -/
structure FS where
  files : List (String × String)
  dirs : List String
deriving DecidableEq

/-- Content of the file at `p`, when present. -/
def FS.fileContent (fs : FS) (p : String) : Option String :=
  (fs.files.find? (fun e => e.1 = p)).map (fun e => e.2)

/-- Models the `os.Stat` existence test: any entry (file or directory)
at `p`. -/
def FS.entryExists (fs : FS) (p : String) : Bool :=
  fs.files.any (fun e => e.1 = p) || fs.dirs.contains p

/-- Chain of a directory and its ancestors, obtained by iterating
`filepath.Dir` to a fixed point; the fuel bounds the iteration and is
ample since each proper step shortens or terminates the chain. -/
def dirChain (fuel : Nat) (d : String) : List String :=
  match fuel with
  | 0 => [d]
  | Nat.succ f =>
    let parent := goDir d
    if parent = d then [d] else d :: dirChain f parent

/-- Models `os.MkdirAll`: records the directory and all its ancestors. -/
def goMkdirAll (fs : FS) (d : String) : FS :=
  { fs with dirs := dirChain (d.length + 2) d ++ fs.dirs }

/-- Header written by `ensureFileWithHeader` when it creates the file. -/
def headerText : String :=
  "# espanso match file (managed by cliesp)\n\n# This file is generated and maintained by cliesp. For more information, see https://github.com/kvnloughead/cliesp.\n\n# For information about espanso, visit the official docs at: https://espanso.org/docs/\n\nmatches:\n"

/-- Models `ensureFileWithHeader` from `main.go`: when nothing exists at
`p`, create the parent directories and the file with the header;
otherwise leave the file system untouched. -/
def ensureFileWithHeader (fs : FS) (p : String) : FS :=
  if fs.entryExists p then fs
  else
    let fs1 := goMkdirAll fs (goDir p)
    { fs1 with files := (p, headerText) :: fs1.files }

/-- A tilde-slash prefix entails a tilde prefix. -/
theorem tilde_of_tildeSlash (s : String) (h : goStartsWith s ("~/") = true) :
    goStartsWith s ("~") = true := by
  unfold goStartsWith at h ⊢
  match hd : s.data with
  | [] => rw [hd] at h; simp [List.isPrefixOf] at h
  | a :: t =>
    rw [hd] at h
    simp [List.isPrefixOf] at h ⊢
    exact h.1

/-- Expansion is the identity on strings without a tilde prefix. -/
theorem expandHome_no_tilde (home : Option String) (s : String)
    (h : goStartsWith s ("~") = false) : expandHome home s = Except.ok s := by
  have h1 : s ≠ "~" := by
    intro e
    subst e
    simp [goStartsWith, List.isPrefixOf] at h
  have h2 : goStartsWith s ("~/") = false := by
    cases h3 : goStartsWith s ("~/") with
    | false => rfl
    | true => rw [tilde_of_tildeSlash s h3] at h; exact absurd h (by simp)
  simp [expandHome, h1, h2]

/-- The guarded expansion inside `resolveMatchPath` agrees with
`expandHome` on every input. -/
theorem expandFlag_eq_expandHome (home : Option String) (s : String) :
    expandFlag home s = expandHome home s := by
  unfold expandFlag
  cases h : goStartsWith s ("~") with
  | true => simp
  | false => simp [expandHome_no_tilde home s h]

/-- Characterisation of the failure of `expandHome`: exactly the home
shorthand inputs with an undetermined home directory. -/
theorem expandHome_error_iff (home : Option String) (s : String) :
    expandHome home s = Except.error PathError.homeResolution ↔
      (home = none ∧ needsHomeShorthand s = true) := by
  by_cases h1 : s = "~"
  · subst h1
    cases home <;> simp [expandHome, needsHomeShorthand]
  · by_cases h2 : goStartsWith s ("~/") = true
    · cases home <;> simp [expandHome, needsHomeShorthand, h1, h2]
    · have h2f : goStartsWith s ("~/") = false := by
        cases h3 : goStartsWith s ("~/") with
        | false => rfl
        | true => exact absurd h3 h2
      cases home <;> simp [expandHome, needsHomeShorthand, h1, h2f]

/-- Dot test distributes over list append. -/
theorem containsDotL_append (l m : List Char) :
    containsDotL (l ++ m) = (containsDotL l || containsDotL m) := by
  induction l with
  | nil => simp [containsDotL]
  | cons c rest ih => simp [containsDotL, ih, Bool.or_assoc]

/-- Dot test is stable under list reversal. -/
theorem containsDotL_reverse (l : List Char) :
    containsDotL l.reverse = containsDotL l := by
  induction l with
  | nil => rfl
  | cons c rest ih =>
    simp [List.reverse_cons, containsDotL_append, containsDotL, ih, Bool.or_comm]

/-- The extension scan returns the empty extension exactly when the
characters before the first separator of the reversed path hold no dot. -/
theorem extScan_eq_nil_iff (l acc : List Char) :
    extScan acc l = [] ↔ containsDotL (l.takeWhile (fun c => !(isPathSeparator c))) = false := by
  induction l generalizing acc with
  | nil => simp [extScan, containsDotL]
  | cons c rest ih =>
    by_cases h1 : isPathSeparator c = true
    · simp [extScan, h1, List.takeWhile_cons, containsDotL]
    · have h1f : isPathSeparator c = false := by
        cases h2 : isPathSeparator c with
        | false => rfl
        | true => exact absurd h2 h1
      by_cases h2 : c = '.'
      · subst h2
        simp [extScan, h1f, List.takeWhile_cons, containsDotL]
      · simp [extScan, h1f, h2, List.takeWhile_cons, containsDotL, ih]

/-- Bridge between `filepath.Ext` and the dot test on the final path
segment: the extension is empty exactly when the final segment has no
dot at all (a trailing dot included). -/
theorem goExt_eq_empty_iff (p : String) :
    goExt p = "" ↔ containsDotL (specFinalSegment p).data = false := by
  unfold goExt specFinalSegment
  rw [String.ext_iff]
  show extScan [] p.data.reverse = [] ↔
    containsDotL ((p.data.reverse.takeWhile (fun c => !(isPathSeparator c))).reverse) = false
  rw [containsDotL_reverse]
  exact extScan_eq_nil_iff p.data.reverse []

/-- Character-level newline split never yields the empty list. -/
theorem splitNl_ne_nil (cs : List Char) : splitNl cs ≠ [] := by
  match cs with
  | [] => simp [splitNl]
  | c :: rest =>
    simp only [splitNl]
    split
    · simp
    · split <;> simp

/-- String-level newline split never yields the empty list. -/
theorem goSplitNewline_ne_nil (s : String) : goSplitNewline s ≠ [] := by
  unfold goSplitNewline
  simp [splitNl_ne_nil]

/-- The literal-block body of a non-empty line list ends with a
newline. -/
theorem concatLines_ends_newline (ls : List String) (h : ls ≠ []) :
    ∃ q, concatLines ls = q ++ "\n" := by
  induction ls with
  | nil => exact absurd rfl h
  | cons l rest ih =>
    match rest with
    | [] =>
      refine ⟨"      " ++ l, ?_⟩
      apply String.ext
      simp [concatLines, String.data_append]
    | r2 :: rest2 =>
      obtain ⟨q, hq⟩ := ih (by simp)
      refine ⟨("      " ++ l ++ "\n") ++ q, ?_⟩
      rw [show concatLines (l :: r2 :: rest2) = ("      " ++ l ++ "\n") ++ concatLines (r2 :: rest2) from rfl, hq]
      apply String.ext
      simp [String.data_append, List.append_assoc]

/-- The replace part of every fragment ends with a newline. -/
theorem replacePart_ends_newline (r : String) : ∃ q, replacePart r = q ++ "\n" := by
  unfold replacePart
  by_cases h : r.data.contains '\n' = true
  · obtain ⟨q, hq⟩ := concatLines_ends_newline (goSplitNewline r) (goSplitNewline_ne_nil r)
    refine ⟨"    replace: |\n" ++ q, ?_⟩
    rw [if_pos h, hq]
    apply String.ext
    simp [String.data_append, List.append_assoc]
  · refine ⟨"    replace: " ++ goQuote r, ?_⟩
    rw [if_neg h]

/-- A file with recorded content is an existing entry. -/
theorem entryExists_of_fileContent (fs : FS) (p : String) (c : String)
    (h : fs.fileContent p = some c) : fs.entryExists p = true := by
  unfold FS.fileContent at h
  cases hfind : fs.files.find? (fun e => e.1 = p) with
  | none => rw [hfind] at h; simp at h
  | some e =>
    have hmem := List.mem_of_find?_eq_some hfind
    unfold FS.entryExists
    have hpred := List.find?_some hfind
    simp only [decide_eq_true_eq] at hpred
    apply Bool.or_eq_true_iff.mpr
    left
    exact List.any_eq_true.mpr ⟨e, hmem, by simp [hpred]⟩

/-- Empty configuration record: every field unset. -/
def emptyConfig : AppConfig := AppConfig.mk "" "" "" "" ""

/-- Resolution of a non-empty flag path after a successful expansion:
the three-way branch of `resolveMatchPath` on the expanded path. -/
theorem resolveMatchPath_flag_branches (home : Option String) (flagPath : String)
    (cfg : AppConfig) (p : String) (h1 : flagPath ≠ "")
    (h2 : expandHome home flagPath = Except.ok p) :
    resolveMatchPath home flagPath cfg =
      (if endsWithSeparator p then Except.ok (filepathJoin p (effectiveFile cfg))
       else if goExt p ≠ "" then Except.ok p
       else Except.ok (filepathJoin p (effectiveFile cfg))) := by
  have he : expandFlag home flagPath = Except.ok p := by
    rw [expandFlag_eq_expandHome]; exact h2
  unfold resolveMatchPath
  rw [if_pos h1, he]

/-- C1 counterexample: the claim's extension predicate (a dot followed
by at least one character) is false for the flag path consisting of a
name with a trailing dot, so the claim demands the directory treatment
and a join with the default file name; the code instead finds a
non-empty `filepath.Ext` and returns the path unchanged. -/
theorem resolveMatchPath_trailing_dot_counterexample :
    specHasExtension ("a.") = false ∧
    resolveMatchPath (some ("/home/u")) ("a.") emptyConfig = Except.ok ("a.") ∧
    filepathJoin ("a.") ("cliesp.yml") ≠ "a." := by
  refine ⟨rfl, rfl, by decide⟩

/-- C1 (amended): for a non-empty flag path whose expansion neither
fails nor ends in a separator, the path is returned unchanged when its
final segment contains a dot anywhere (a trailing dot included), and is
otherwise treated as a directory and joined with the effective file
name. -/
theorem resolveMatchPath_flag_extension (home : Option String) (flagPath : String)
    (cfg : AppConfig) (p : String) (h1 : flagPath ≠ "")
    (h2 : expandHome home flagPath = Except.ok p)
    (h3 : endsWithSeparator p = false) :
    (containsDotL (specFinalSegment p).data = true →
      resolveMatchPath home flagPath cfg = Except.ok p) ∧
    (containsDotL (specFinalSegment p).data = false →
      resolveMatchPath home flagPath cfg = Except.ok (filepathJoin p (effectiveFile cfg))) := by
  rw [resolveMatchPath_flag_branches home flagPath cfg p h1 h2, if_neg (by simp [h3])]
  constructor
  · intro h4
    have hne : goExt p ≠ "" := by
      intro he
      rw [(goExt_eq_empty_iff p).mp he] at h4
      exact Bool.false_ne_true h4
    rw [if_pos hne]
  · intro h4
    have heq : goExt p = "" := (goExt_eq_empty_iff p).mpr h4
    rw [if_neg (by simp [heq])]

/-- C1 witness: a flag path with a dot in its final segment is returned
unchanged, and one without any dot is joined with the default file
name. -/
theorem resolveMatchPath_flag_extension_witness :
    resolveMatchPath (some ("/h")) ("/tmp/x.yml") emptyConfig = Except.ok ("/tmp/x.yml") ∧
    resolveMatchPath (some ("/h")) ("/tmp/mydir") emptyConfig = Except.ok ("/tmp/mydir/cliesp.yml") := by
  constructor
  · exact (resolveMatchPath_flag_extension (some ("/h")) ("/tmp/x.yml") emptyConfig
      ("/tmp/x.yml") (by decide) rfl rfl).1 rfl
  · have h := (resolveMatchPath_flag_extension (some ("/h")) ("/tmp/mydir") emptyConfig
      ("/tmp/mydir") (by decide) rfl rfl).2 rfl
    exact h.trans rfl

/-- C2: a flag path whose expansion ends in a path separator is treated
as a directory: the result joins it with the effective file name, which
depends only on `match_file` (never on `match_dir`). -/
theorem resolveMatchPath_flag_directory (home : Option String) (flagPath : String)
    (cfg : AppConfig) (p : String) (h1 : flagPath ≠ "")
    (h2 : expandHome home flagPath = Except.ok p)
    (h3 : endsWithSeparator p = true) :
    resolveMatchPath home flagPath cfg =
      Except.ok (filepathJoin p (if cfg.MatchFile = "" then defaultEspansoMatchFile else cfg.MatchFile)) := by
  rw [resolveMatchPath_flag_branches home flagPath cfg p h1 h2, if_pos h3]
  rfl

/-- C2 witness: a trailing-slash flag path is joined with the
configured file name; the configured directory is ignored. -/
theorem resolveMatchPath_flag_directory_witness :
    resolveMatchPath none ("/tmp/") (AppConfig.mk "/ignored" "file.yml" "" "" "") =
      Except.ok ("/tmp/file.yml") := by
  have h := resolveMatchPath_flag_directory none ("/tmp/")
    (AppConfig.mk "/ignored" "file.yml" "" "" "") ("/tmp/") (by decide) rfl rfl
  exact h.trans rfl

/-- C3: with no flag path, the result joins the expanded effective
directory (the configured `match_dir`, or the default when unset) with
the effective file name (the configured `match_file`, or the default
when unset). -/
theorem resolveMatchPath_config_defaults (home : Option String) (cfg : AppConfig)
    (d : String) (h : expandHome home (effectiveDir cfg) = Except.ok d) :
    resolveMatchPath home ("") cfg = Except.ok (filepathJoin d (effectiveFile cfg)) := by
  have he : expandFlag home (effectiveDir cfg) = Except.ok d := by
    rw [expandFlag_eq_expandHome]; exact h
  unfold resolveMatchPath
  rw [if_neg (by simp), he]

/-- C3 witness: configured directory and file are used verbatim; the
defaults appear when the configuration is empty. -/
theorem resolveMatchPath_config_defaults_witness :
    resolveMatchPath none ("") (AppConfig.mk "/abs/dir" "f.yml" "" "" "") =
      Except.ok ("/abs/dir/f.yml") ∧
    resolveMatchPath (some ("/h")) ("") emptyConfig =
      Except.ok ("/h/Library/Application Support/espanso/match/cliesp.yml") := by
  constructor
  · have h := resolveMatchPath_config_defaults none (AppConfig.mk "/abs/dir" "f.yml" "" "" "")
      ("/abs/dir") rfl
    exact h.trans rfl
  · have h := resolveMatchPath_config_defaults (some ("/h")) emptyConfig
      ("/h/Library/Application Support/espanso/match") (by rfl)
    exact h.trans rfl

/-- C4: for a non-empty trigger list and a replacement containing a
newline, the fragment uses the literal block form: the trigger line,
then `replace: |`, then every line of the split replacement prefixed
with six spaces and terminated by a newline (empty lines included, so a
trailing newline in the input yields a trailing indented empty line). -/
theorem buildYAMLSnippet_multiline_block (ts : List String) (r : String)
    (_h1 : ts ≠ []) (h2 : r.data.contains '\n' = true) :
    buildYAMLSnippet ts r =
      "\n  - " ++ triggerPart ts ++ "    replace: |\n" ++ concatLines (goSplitNewline r) := by
  unfold buildYAMLSnippet replacePart
  rw [if_pos h2]
  apply String.ext
  simp [String.data_append, List.append_assoc]

/-- C4 witness: the fragment for trigger `:test` and replacement
`"line1\n\nline3\n"`, with the indented empty lines preserved. -/
theorem buildYAMLSnippet_multiline_block_witness :
    buildYAMLSnippet [":test"] ("line1\n\nline3\n") =
      "\n  - trigger: \":test\"\n    replace: |\n      line1\n      \n      line3\n      \n" := by
  have h := buildYAMLSnippet_multiline_block [":test"] ("line1\n\nline3\n") (by decide) (by decide)
  exact h.trans rfl

/-- C5: with a newline-free replacement, a one-element trigger list
yields the `trigger:` form with both strings double-quoted, and a list
of two or more elements yields the `triggers: [...]` form with the
quoted elements comma-space separated in the supplied order. -/
theorem buildYAMLSnippet_trigger_forms (ts : List String) (r : String)
    (h : r.data.contains '\n' = false) :
    (∀ t, ts = [t] →
      buildYAMLSnippet ts r =
        "\n  - trigger: " ++ goQuote t ++ "\n    replace: " ++ goQuote r ++ "\n") ∧
    (∀ t u rest2, ts = t :: u :: rest2 →
      buildYAMLSnippet ts r =
        "\n  - triggers: [" ++ goQuote t ++ concatRest (u :: rest2) ++ "]\n    replace: " ++ goQuote r ++ "\n") := by
  constructor
  · intro t ht
    subst ht
    unfold buildYAMLSnippet replacePart triggerPart
    rw [if_neg (by intro hc; rw [h] at hc; exact Bool.false_ne_true hc)]
    apply String.ext
    simp [String.data_append, List.append_assoc]
  · intro t u rest2 ht
    subst ht
    unfold buildYAMLSnippet replacePart triggerPart triggersInline
    rw [if_neg (by intro hc; rw [h] at hc; exact Bool.false_ne_true hc)]
    apply String.ext
    simp [String.data_append, List.append_assoc]

/-- C5 witness: the two exact fragments of the specification's
examples. -/
theorem buildYAMLSnippet_trigger_forms_witness :
    buildYAMLSnippet [":one"] ("Hello") = "\n  - trigger: \":one\"\n    replace: \"Hello\"\n" ∧
    buildYAMLSnippet [":a", ":b"] ("Hi") = "\n  - triggers: [\":a\", \":b\"]\n    replace: \"Hi\"\n" := by
  constructor
  · have h := (buildYAMLSnippet_trigger_forms [":one"] ("Hello") (by decide)).1 (":one") rfl
    exact h.trans rfl
  · have h := (buildYAMLSnippet_trigger_forms [":a", ":b"] ("Hi") (by decide)).2 (":a") (":b") [] rfl
    exact h.trans rfl

/-- C6: the bare tilde expands to exactly the home directory, a
tilde-slash path expands to the home directory joined with the
remainder, and a path without a tilde prefix is returned unmodified,
whenever the home directory is determined. -/
theorem expandHome_spec (h p : String) :
    (p = "~" → expandHome (some h) p = Except.ok h) ∧
    (goStartsWith p ("~/") = true →
      expandHome (some h) p = Except.ok (filepathJoin h (goTrimLeading p ("~/")))) ∧
    (goStartsWith p ("~") = false → expandHome (some h) p = Except.ok p) := by
  refine ⟨?_, ?_, ?_⟩
  · intro hp
    subst hp
    rfl
  · intro hp
    have h1 : p ≠ "~" := by
      intro e
      rw [e] at hp
      exact absurd hp (by decide)
    unfold expandHome
    rw [if_neg h1, if_pos hp]
  · intro hp
    exact expandHome_no_tilde (some h) p hp

/-- C6 witness: the three expansion cases at concrete inputs. -/
theorem expandHome_spec_witness :
    expandHome (some ("/home/u")) ("~") = Except.ok ("/home/u") ∧
    expandHome (some ("/home/u")) ("~/foo/bar") = Except.ok ("/home/u/foo/bar") ∧
    expandHome (some ("/home/u")) ("/x") = Except.ok ("/x") := by
  refine ⟨?_, ?_, ?_⟩
  · exact (expandHome_spec ("/home/u") ("~")).1 rfl
  · have h := (expandHome_spec ("/home/u") ("~/foo/bar")).2.1 (by decide)
    exact h.trans rfl
  · exact (expandHome_spec ("/home/u") ("/x")).2.2 (by decide)

/-- C7: the resolver fails, always with the home-resolution error,
exactly when the string it expands (the flag path when supplied, the
effective directory otherwise) carries the home shorthand while the
home directory is undetermined; in every other case it returns a
complete path. -/
theorem resolveMatchPath_home_error_iff (home : Option String) (flagPath : String) (cfg : AppConfig) :
    resolveMatchPath home flagPath cfg = Except.error PathError.homeResolution ↔
      (home = none ∧ needsHomeShorthand (if flagPath = "" then effectiveDir cfg else flagPath) = true) := by
  by_cases hf : flagPath = ""
  · subst hf
    rw [if_pos rfl]
    cases hE : expandHome home (effectiveDir cfg) with
    | error e =>
      cases e
      have hL : resolveMatchPath home ("") cfg = Except.error PathError.homeResolution := by
        unfold resolveMatchPath
        rw [if_neg (by simp), expandFlag_eq_expandHome, hE]
      rw [hL]
      exact iff_of_true rfl ((expandHome_error_iff home (effectiveDir cfg)).mp hE)
    | ok d =>
      have hL : resolveMatchPath home ("") cfg = Except.ok (filepathJoin d (effectiveFile cfg)) := by
        unfold resolveMatchPath
        rw [if_neg (by simp), expandFlag_eq_expandHome, hE]
      rw [hL]
      apply iff_of_false
      · intro hcon
        exact absurd hcon (by simp)
      · intro hrhs
        have h2 := (expandHome_error_iff home (effectiveDir cfg)).mpr hrhs
        rw [h2] at hE
        exact absurd hE (by simp)
  · rw [if_neg hf]
    cases hE : expandHome home flagPath with
    | error e =>
      cases e
      have hL : resolveMatchPath home flagPath cfg = Except.error PathError.homeResolution := by
        unfold resolveMatchPath
        rw [if_pos hf, expandFlag_eq_expandHome, hE]
      rw [hL]
      exact iff_of_true rfl ((expandHome_error_iff home flagPath).mp hE)
    | ok p =>
      rw [resolveMatchPath_flag_branches home flagPath cfg p hf hE]
      apply iff_of_false
      · intro hcon
        split at hcon
        · exact absurd hcon (by simp)
        · split at hcon
          · exact absurd hcon (by simp)
          · exact absurd hcon (by simp)
      · intro hrhs
        have h2 := (expandHome_error_iff home flagPath).mpr hrhs
        rw [h2] at hE
        exact absurd hE (by simp)

/-- C7 witness: a tilde flag path with an undetermined home directory
produces the home-resolution error. -/
theorem resolveMatchPath_home_error_iff_witness :
    resolveMatchPath none ("~/x") emptyConfig = Except.error PathError.homeResolution := by
  exact (resolveMatchPath_home_error_iff none ("~/x") emptyConfig).mpr ⟨rfl, by decide⟩

/-- C8: when no entry exists at the path, the operation records the
parent directory chain and creates the file with the header, whose
content starts with the expected comment prefix and contains a
`matches:` line; when the file already exists, the file system is
returned untouched and the stored content is unchanged. -/
theorem ensureFileWithHeader_spec (fs : FS) (p : String) :
    (fs.entryExists p = false →
      (ensureFileWithHeader fs p).fileContent p = some headerText ∧
      goStartsWith headerText ("# espanso match file") = true ∧
      (goSplitNewline headerText).contains ("matches:") = true ∧
      (∀ d, d ∈ dirChain ((goDir p).length + 2) (goDir p) → d ∈ (ensureFileWithHeader fs p).dirs)) ∧
    (∀ c, fs.fileContent p = some c →
      ensureFileWithHeader fs p = fs ∧ (ensureFileWithHeader fs p).fileContent p = some c) := by
  constructor
  · intro h
    have hE : ensureFileWithHeader fs p =
        FS.mk ((p, headerText) :: (goMkdirAll fs (goDir p)).files) ((goMkdirAll fs (goDir p)).dirs) := by
      unfold ensureFileWithHeader
      rw [if_neg (by intro hc; rw [h] at hc; exact Bool.false_ne_true hc)]
    refine ⟨?_, by decide, by decide, ?_⟩
    · rw [hE]
      unfold FS.fileContent
      simp [List.find?]
    · intro d hd
      rw [hE]
      show d ∈ (goMkdirAll fs (goDir p)).dirs
      unfold goMkdirAll
      exact List.mem_append_left _ hd
  · intro c hc
    have hT : fs.entryExists p = true := entryExists_of_fileContent fs p c hc
    have hE : ensureFileWithHeader fs p = fs := by
      unfold ensureFileWithHeader
      rw [if_pos hT]
    exact ⟨hE, by rw [hE]; exact hc⟩

/-- C8 witness: creating at a fresh nested path records the header
content and the parent directory; an existing file is left untouched. -/
theorem ensureFileWithHeader_spec_witness :
    (ensureFileWithHeader (FS.mk [] []) ("/a/b/c.yml")).fileContent ("/a/b/c.yml") = some headerText ∧
    "/a" ∈ (ensureFileWithHeader (FS.mk [] []) ("/a/b/c.yml")).dirs ∧
    ensureFileWithHeader (FS.mk [("/x.yml", "old")] []) ("/x.yml") = FS.mk [("/x.yml", "old")] [] := by
  refine ⟨?_, ?_, ?_⟩
  · exact ((ensureFileWithHeader_spec (FS.mk [] []) ("/a/b/c.yml")).1 rfl).1
  · exact ((ensureFileWithHeader_spec (FS.mk [] []) ("/a/b/c.yml")).1 rfl).2.2.2 ("/a") (by decide)
  · exact ((ensureFileWithHeader_spec (FS.mk [("/x.yml", "old")] []) ("/x.yml")).2 ("old") rfl).1

/-- C9: with a non-empty flag path, the resolved path depends on the
configuration only through `match_file`: two configurations agreeing on
`match_file` and differing arbitrarily elsewhere resolve identically. -/
theorem resolveMatchPath_matchdir_noninterference (home : Option String) (flagPath : String)
    (cfg1 cfg2 : AppConfig) (h1 : flagPath ≠ "") (h2 : cfg1.MatchFile = cfg2.MatchFile) :
    resolveMatchPath home flagPath cfg1 = resolveMatchPath home flagPath cfg2 := by
  have hf : effectiveFile cfg1 = effectiveFile cfg2 := by
    unfold effectiveFile
    rw [h2]
  unfold resolveMatchPath
  rw [if_pos h1, if_pos h1, hf]

/-- C9 witness: two configurations differing in every field except
`match_file` resolve a flag path to the same result. -/
theorem resolveMatchPath_matchdir_noninterference_witness :
    resolveMatchPath none ("/tmp/") (AppConfig.mk "/dirA" "f.yml" "" "" "x") =
      resolveMatchPath none ("/tmp/") (AppConfig.mk "/dirB" "f.yml" "vim" "open" "eof") := by
  exact resolveMatchPath_matchdir_noninterference none ("/tmp/")
    (AppConfig.mk "/dirA" "f.yml" "" "" "x") (AppConfig.mk "/dirB" "f.yml" "vim" "open" "eof")
    (by decide) rfl

/-- C10: the formatter is total and shape-invariant: for every trigger
list (the empty list included) and every replacement, the fragment
starts with the list marker and ends with a newline, and the empty
trigger list produces the multi-trigger form with an empty inline
list. -/
theorem buildYAMLSnippet_total_shape (ts : List String) (r : String) :
    (∃ tail1, buildYAMLSnippet ts r = "\n  - " ++ tail1) ∧
    (∃ q, buildYAMLSnippet ts r = q ++ "\n") ∧
    (ts = [] → ∃ body, buildYAMLSnippet ts r = "\n  - triggers: []\n" ++ body) := by
  refine ⟨⟨triggerPart ts ++ replacePart r, ?_⟩, ?_, ?_⟩
  · unfold buildYAMLSnippet
    rw [String.append_assoc]
  · obtain ⟨q, hq⟩ := replacePart_ends_newline r
    refine ⟨"\n  - " ++ triggerPart ts ++ q, ?_⟩
    unfold buildYAMLSnippet
    rw [hq, ← String.append_assoc]
  · intro h
    subst h
    refine ⟨replacePart r, ?_⟩
    unfold buildYAMLSnippet
    rw [show ("\n  - " : String) ++ triggerPart [] = "\n  - triggers: []\n" from rfl]

/-- C10 witness: the empty trigger list yields the `triggers: []`
form rather than a failure. -/
theorem buildYAMLSnippet_total_shape_witness :
    ∃ body, buildYAMLSnippet ([] : List String) ("x") = "\n  - triggers: []\n" ++ body := by
  exact (buildYAMLSnippet_total_shape [] ("x")).2.2 rfl
